import Mathlib

/-!
Shallow embedding of the tic-tac-toe game engine of this repository
(`src/tic-tac-toe.py`; `src/tic_tac_toe_gui.py` contains a byte-identical copy
of the same engine methods).  The mutable `TicTacToe` object of the Python
source is modelled as an immutable `TicTacToe` structure, and every method
that mutates `self` becomes a function returning the updated structure
(together with its Python return value, when it has one).
-/

namespace TTT

/-- A player mark: the Python strings `'X'` and `'O'`. -/
inductive Mark where
  | X
  | O
deriving DecidableEq, Repr, Fintype

/-- A board cell: the Python strings `' '` (modelled as `none`), `'X'`, `'O'`. -/
abbrev Cell := Option Mark

/-- The toggle `'O' if self.current_player == 'X' else 'X'` (tic-tac-toe.py line 83). -/
def other : Mark → Mark
  | .X => .O
  | .O => .X

/-- The AI difficulty strings `"easy"`, `"medium"`, `"hard"`. -/
inductive Difficulty where
  | easy
  | medium
  | hard
deriving DecidableEq, Repr

/-- The table `max_depth = {'easy': 1, 'medium': 3, 'hard': 9}` together with
`max_depth.get(self.ai_difficulty, 3)` (tic-tac-toe.py lines 159-160); the
lookup default 3 is unreachable because every difficulty value is a key. -/
def maxDepth : Difficulty → Nat
  | .easy => 1
  | .medium => 3
  | .hard => 9

/-- The 3×3 grid `self.board`: one field per (row, col) cell. -/
structure Board where
  c00 : Cell
  c01 : Cell
  c02 : Cell
  c10 : Cell
  c11 : Cell
  c12 : Cell
  c20 : Cell
  c21 : Cell
  c22 : Cell
deriving DecidableEq, Repr

/-- Enumeration of the finitely many grids, through the evident equivalence
with a 9-tuple of cells (used to decide statements quantified over grids). -/
instance : Fintype Board :=
  Fintype.ofEquiv (Cell × Cell × Cell × Cell × Cell × Cell × Cell × Cell × Cell)
    { toFun := fun t => ⟨t.1, t.2.1, t.2.2.1, t.2.2.2.1, t.2.2.2.2.1,
        t.2.2.2.2.2.1, t.2.2.2.2.2.2.1, t.2.2.2.2.2.2.2.1, t.2.2.2.2.2.2.2.2⟩
      invFun := fun b => (b.c00, b.c01, b.c02, b.c10, b.c11, b.c12, b.c20,
        b.c21, b.c22)
      left_inv := fun _ => rfl
      right_inv := fun _ => rfl }

/-- The all-empty grid `[[' ' for _ in range(3)] for _ in range(3)]`. -/
def emptyBoard : Board :=
  ⟨none, none, none, none, none, none, none, none, none⟩

/-- Reading one cell of the grid: `self.board[row][col]`. -/
def getCell (b : Board) (r c : Fin 3) : Cell :=
  if r = 0 then
    if c = 0 then b.c00 else if c = 1 then b.c01 else b.c02
  else if r = 1 then
    if c = 0 then b.c10 else if c = 1 then b.c11 else b.c12
  else
    if c = 0 then b.c20 else if c = 1 then b.c21 else b.c22

/-- Writing one cell of the grid: `self.board[row][col] = v`. -/
def setCell (b : Board) (r c : Fin 3) (v : Cell) : Board :=
  if r = 0 then
    if c = 0 then { b with c00 := v }
    else if c = 1 then { b with c01 := v }
    else { b with c02 := v }
  else if r = 1 then
    if c = 0 then { b with c10 := v }
    else if c = 1 then { b with c11 := v }
    else { b with c12 := v }
  else
    if c = 0 then { b with c20 := v }
    else if c = 1 then { b with c21 := v }
    else { b with c22 := v }

/-- The game object: the mutable fields of the Python `TicTacToe` class
(tic-tac-toe.py lines 9-17). -/
structure TicTacToe where
  board : Board
  current_player : Mark
  game_over : Bool
  winner : Option Mark
  moves_count : Nat
  ai_enabled : Bool
  ai_difficulty : Difficulty
deriving DecidableEq, Repr

/-- The constructor `__init__` (tic-tac-toe.py lines 9-17): empty board, X starts,
difficulty defaults to `"medium"`. -/
def initState : TicTacToe :=
  { board := emptyBoard
    current_player := .X
    game_over := false
    winner := none
    moves_count := 0
    ai_enabled := false
    ai_difficulty := .medium }

/-- The method `reset_game` (tic-tac-toe.py lines 19-25): restores the five game fields,
leaving the AI configuration fields alone. -/
def reset_game (s : TicTacToe) : TicTacToe :=
  { s with
    board := emptyBoard
    current_player := .X
    game_over := false
    winner := none
    moves_count := 0 }

/-- The body of `check_win` (tic-tac-toe.py lines 87-112) as a pure function
of the grid and the player being tested: three row counts, three column
counts, two chained diagonal comparisons. -/
def check_win_for (b : Board) (p : Mark) : Bool :=
  ([b.c00, b.c01, b.c02].count (some p) == 3) ||
  ([b.c10, b.c11, b.c12].count (some p) == 3) ||
  ([b.c20, b.c21, b.c22].count (some p) == 3) ||
  ([b.c00, b.c10, b.c20].count (some p) == 3) ||
  ([b.c01, b.c11, b.c21].count (some p) == 3) ||
  ([b.c02, b.c12, b.c22].count (some p) == 3) ||
  (b.c00 == some p && b.c11 == some p && b.c22 == some p) ||
  (b.c02 == some p && b.c11 == some p && b.c20 == some p)

/-- The method `check_win` (tic-tac-toe.py lines 87-112): tests the current player. -/
def check_win (s : TicTacToe) : Bool :=
  check_win_for s.board s.current_player

/-- The method `make_move` (tic-tac-toe.py lines 52-85).  Returns the Python boolean
result paired with the state the mutations leave behind. -/
def make_move (s : TicTacToe) (row col : Fin 3) : Bool × TicTacToe :=
  if s.game_over then (false, s)
  else if getCell s.board row col ≠ none then (false, s)
  else
    let s1 : TicTacToe :=
      { s with
        board := setCell s.board row col (some s.current_player)
        moves_count := s.moves_count + 1 }
    if check_win s1 then
      (true, { s1 with game_over := true, winner := some s.current_player })
    else if s1.moves_count = 9 then
      (true, { s1 with game_over := true })
    else
      (true, { s1 with current_player := other s.current_player })

/-- The row-major enumeration order of `get_empty_cells`'s two nested loops
(`for i in range(3): for j in range(3)`). -/
def allCells : List (Fin 3 × Fin 3) :=
  [(0, 0), (0, 1), (0, 2), (1, 0), (1, 1), (1, 2), (2, 0), (2, 1), (2, 2)]

/-- The method `get_empty_cells` (tic-tac-toe.py lines 114-126): the empty cells in
row-major order. -/
def get_empty_cells (s : TicTacToe) : List (Fin 3 × Fin 3) :=
  allCells.filter (fun p => getCell s.board p.1 p.2 == none)

/-- The method `is_board_full` (tic-tac-toe.py lines 128-135): `moves_count == 9`. -/
def is_board_full (s : TicTacToe) : Bool :=
  s.moves_count == 9

/-- The number of non-empty cells of a grid (the quantity the spec's move
count invariant refers to). -/
def nonEmptyCount (b : Board) : Nat :=
  (allCells.filter (fun p => getCell b p.1 p.2 ≠ none)).length

/-- The value space of minimax scores: the integer scores `10 - depth`,
`depth - 10`, `0` together with Python's `float('-inf')` and `float('inf')`
used to initialize `alpha`, `beta` and `best_score`. -/
inductive Score where
  | negInf
  | val (n : Int)
  | posInf
deriving DecidableEq, Repr

namespace Score

/-- The `<=` comparison on scores (exact on the integers involved). -/
def ble : Score → Score → Bool
  | .negInf, _ => true
  | _, .posInf => true
  | .posInf, _ => false
  | .val _, .negInf => false
  | .val a, .val b => a ≤ b

/-- The `<` comparison on scores. -/
def blt (a b : Score) : Bool := !(ble b a)

/-- Python's binary `max`. -/
def smax (a b : Score) : Score := if ble a b then b else a

/-- Python's binary `min`. -/
def smin (a b : Score) : Score := if ble b a then b else a

end Score

/-- The `{'score': ..., 'move': ...}` dictionary minimax returns; a missing
`'move'` key and `'move': None` are both modelled as `none` (both make the
`if 'move' in result and result['move']:` test of `ai_move_hard` false). -/
structure SearchResult where
  score : Score
  move : Option (Fin 3 × Fin 3)
deriving DecidableEq, Repr

/- The method `minimax` (tic-tac-toe.py lines 137-239) together with its two
`for cell in self.get_empty_cells():` loops, which are broken out as the
mutually recursive `maxLoop` and `minLoop`.  The Python method reads
`self.ai_difficulty`, which no statement of the search ever writes; it is
lifted to the parameter `diff` (the callers pass the state's own field).
Each function returns the Python value paired with the state left behind by
the in-place mutations. -/
mutual

/-- The method `minimax`: terminal scoring, depth cutoff, and dispatch to the
maximizing or minimizing loop; `current_player` is saved in `player_before`
and restored after the loop. -/
def minimax (diff : Difficulty) (depth : Nat) (isMax : Bool)
    (alpha beta : Score) (s : TicTacToe) : SearchResult × TicTacToe :=
  if s.winner = some Mark.O then (⟨.val (10 - (depth : Int)), none⟩, s)
  else if s.winner = some Mark.X then (⟨.val ((depth : Int) - 10), none⟩, s)
  else if is_board_full s then (⟨.val 0, none⟩, s)
  else if h : maxDepth diff ≤ depth then (⟨.val 0, none⟩, s)
  else if isMax then
    let s0 : TicTacToe := { s with current_player := .O }
    let r := maxLoop diff depth (by omega) (get_empty_cells s0)
      alpha beta .negInf none s0
    (⟨r.1.1, r.1.2⟩, { r.2 with current_player := s.current_player })
  else
    let s0 : TicTacToe := { s with current_player := .X }
    let r := minLoop diff depth (by omega) (get_empty_cells s0)
      alpha beta .posInf none s0
    (⟨r.1.1, r.1.2⟩, { r.2 with current_player := s.current_player })
termination_by (maxDepth diff - depth, 1, 0)

def maxLoop (diff : Difficulty) (depth : Nat) (h : depth < maxDepth diff)
    (cells : List (Fin 3 × Fin 3)) (alpha beta best : Score)
    (bm : Option (Fin 3 × Fin 3)) (s : TicTacToe) :
    (Score × Option (Fin 3 × Fin 3)) × TicTacToe :=
  match cells with
  | [] => ((best, bm), s)
  | (r, c) :: rest =>
    let s1 : TicTacToe :=
      { s with board := setCell s.board r c (some Mark.O)
               moves_count := s.moves_count + 1 }
    let s2 : TicTacToe := if check_win s1 then { s1 with winner := some Mark.O } else s1
    let res := minimax diff (depth + 1) false alpha beta s2
    let s4 : TicTacToe :=
      { res.2 with board := setCell res.2.board r c none
                   moves_count := res.2.moves_count - 1
                   winner := none }
    let bb := if Score.blt best res.1.score then (res.1.score, some (r, c)) else (best, bm)
    let alpha1 := Score.smax alpha bb.1
    if Score.ble beta alpha1 then (bb, s4)
    else maxLoop diff depth h rest alpha1 beta bb.1 bb.2 s4
termination_by (maxDepth diff - depth, 0, cells.length)

def minLoop (diff : Difficulty) (depth : Nat) (h : depth < maxDepth diff)
    (cells : List (Fin 3 × Fin 3)) (alpha beta best : Score)
    (bm : Option (Fin 3 × Fin 3)) (s : TicTacToe) :
    (Score × Option (Fin 3 × Fin 3)) × TicTacToe :=
  match cells with
  | [] => ((best, bm), s)
  | (r, c) :: rest =>
    let s1 : TicTacToe :=
      { s with board := setCell s.board r c (some Mark.X)
               moves_count := s.moves_count + 1 }
    let s2 : TicTacToe := if check_win s1 then { s1 with winner := some Mark.X } else s1
    let res := minimax diff (depth + 1) true alpha beta s2
    let s4 : TicTacToe :=
      { res.2 with board := setCell res.2.board r c none
                   moves_count := res.2.moves_count - 1
                   winner := none }
    let bb := if Score.blt res.1.score best then (res.1.score, some (r, c)) else (best, bm)
    let beta1 := Score.smin beta bb.1
    if Score.ble beta1 alpha then (bb, s4)
    else minLoop diff depth h rest alpha beta1 bb.1 bb.2 s4
termination_by (maxDepth diff - depth, 0, cells.length)

end

/-- The method `ai_move_hard` (tic-tac-toe.py lines 259-264): run the search
from depth 0 as maximizer (with the Python default arguments
`alpha = float('-inf')`, `beta = float('inf')`) and play the returned move
when one is present; the truthiness test `result['move']` is false exactly
for a missing move (a `(row, col)` tuple is always truthy). -/
def ai_move_hard (s : TicTacToe) : TicTacToe :=
  let r := minimax s.ai_difficulty 0 true .negInf .posInf s
  match r.1.move with
  | some (row, col) => (make_move r.2 row col).2
  | none => r.2

/-- The method `ai_move_easy` (tic-tac-toe.py lines 241-246):
`random.choice(empty_cells)` is modelled by an arbitrary index `pick`
reduced modulo the list length; with an empty list nothing happens. -/
def ai_move_easy (s : TicTacToe) (pick : Nat) : TicTacToe :=
  let cells := get_empty_cells s
  if h : cells = [] then s
  else
    let rc := cells.get ⟨pick % cells.length,
      Nat.mod_lt _ (List.length_pos.mpr h)⟩
    (make_move s rc.1 rc.2).2

/-- The method `ai_move_medium` (tic-tac-toe.py lines 248-257): the outcome
of the comparison `random.random() < 0.7` is modelled by the boolean
`coin`. -/
def ai_move_medium (s : TicTacToe) (coin : Bool) (pick : Nat) : TicTacToe :=
  if coin then ai_move_hard s else ai_move_easy s pick

/-- The method `ai_move` (tic-tac-toe.py lines 266-276): dispatch on the
difficulty, with hard as the `else` arm; the `time.sleep` delay is cosmetic
and not modelled. -/
def ai_move (s : TicTacToe) (coin : Bool) (pick : Nat) : TicTacToe :=
  match s.ai_difficulty with
  | .easy => ai_move_easy s pick
  | .medium => ai_move_medium s coin pick
  | .hard => ai_move_hard s

/-- The spec's section 6 `attemptMove`: the coordinate guard
`0 <= row < 3 and 0 <= col < 3` that `get_player_move`
(tic-tac-toe.py line 305) runs before calling `make_move` — the GUI's
click-to-cell mapping establishes the same bound geometrically — composed
with `make_move` itself.  Out-of-range coordinates are rejected without the
board being consulted. -/
def attemptMove (s : TicTacToe) (row col : Int) : Bool × TicTacToe :=
  if h : 0 ≤ row ∧ row < 3 ∧ 0 ≤ col ∧ col < 3 then
    make_move s ⟨row.toNat, by omega⟩ ⟨col.toNat, by omega⟩
  else (false, s)

/-- The states reachable from a fresh game object through the operations the
two front-ends invoke: the game-mode configuration performed by the menus,
human moves (`make_move`, with any in-range coordinates, successful or not),
`reset_game`, and the AI moves at any difficulty. -/
inductive Reachable : TicTacToe → Prop where
  | init : Reachable initState
  | config (s : TicTacToe) (e : Bool) (d : Difficulty) : Reachable s →
      Reachable { s with ai_enabled := e, ai_difficulty := d }
  | place (s : TicTacToe) (row col : Fin 3) : Reachable s →
      Reachable (make_move s row col).2
  | reset (s : TicTacToe) : Reachable s → Reachable (reset_game s)
  | ai (s : TicTacToe) (coin : Bool) (pick : Nat) : Reachable s →
      Reachable (ai_move s coin pick)

/-- The fresh game object configured as the console and GUI menus do for the
Human vs AI (Hard) mode. -/
def initHard : TicTacToe :=
  { initState with ai_enabled := true, ai_difficulty := .hard }

/-- The plays of a Hard-tier game as both front-ends drive it: the human
side moves (at any in-range coordinates) whenever it is X's turn and the
game is not over, and the search-based `ai_move_hard` moves whenever it is
O's turn and the game is not over. -/
inductive HardPlay : TicTacToe → Prop where
  | init : HardPlay initHard
  | xmove (s : TicTacToe) (row col : Fin 3) : HardPlay s →
      s.game_over = false → s.current_player = Mark.X →
      HardPlay (make_move s row col).2
  | omove (s : TicTacToe) : HardPlay s →
      s.game_over = false → s.current_player = Mark.O →
      HardPlay (ai_move_hard s)

/- Reference search for the spec's refinement claim: plain minimax without
alpha-beta pruning, over the same board, the same depth limit and the same
row-major empty-cell order, with the same terminal scoring, the same depth
cutoff and the same strict-improvement tie-breaking.  This pair of loop
functions follows the spec's words, for comparison with `minimax` above. -/
mutual

/-- Plain reference minimax: as `minimax`, but the loops keep no
alpha/beta and never prune. -/
def minimaxRef (diff : Difficulty) (depth : Nat) (isMax : Bool)
    (s : TicTacToe) : SearchResult × TicTacToe :=
  if s.winner = some Mark.O then (⟨.val (10 - (depth : Int)), none⟩, s)
  else if s.winner = some Mark.X then (⟨.val ((depth : Int) - 10), none⟩, s)
  else if is_board_full s then (⟨.val 0, none⟩, s)
  else if h : maxDepth diff ≤ depth then (⟨.val 0, none⟩, s)
  else if isMax then
    let s0 : TicTacToe := { s with current_player := .O }
    let r := refMaxLoop diff depth (by omega) (get_empty_cells s0) .negInf none s0
    (⟨r.1.1, r.1.2⟩, { r.2 with current_player := s.current_player })
  else
    let s0 : TicTacToe := { s with current_player := .X }
    let r := refMinLoop diff depth (by omega) (get_empty_cells s0) .posInf none s0
    (⟨r.1.1, r.1.2⟩, { r.2 with current_player := s.current_player })
termination_by (maxDepth diff - depth, 1, 0)

/-- Maximizing loop of the plain reference minimax. -/
def refMaxLoop (diff : Difficulty) (depth : Nat) (h : depth < maxDepth diff)
    (cells : List (Fin 3 × Fin 3)) (best : Score)
    (bm : Option (Fin 3 × Fin 3)) (s : TicTacToe) :
    (Score × Option (Fin 3 × Fin 3)) × TicTacToe :=
  match cells with
  | [] => ((best, bm), s)
  | (r, c) :: rest =>
    let s1 : TicTacToe :=
      { s with board := setCell s.board r c (some Mark.O)
               moves_count := s.moves_count + 1 }
    let s2 : TicTacToe := if check_win s1 then { s1 with winner := some Mark.O } else s1
    let res := minimaxRef diff (depth + 1) false s2
    let s4 : TicTacToe :=
      { res.2 with board := setCell res.2.board r c none
                   moves_count := res.2.moves_count - 1
                   winner := none }
    let bb := if Score.blt best res.1.score then (res.1.score, some (r, c)) else (best, bm)
    refMaxLoop diff depth h rest bb.1 bb.2 s4
termination_by (maxDepth diff - depth, 0, cells.length)

/-- Minimizing loop of the plain reference minimax. -/
def refMinLoop (diff : Difficulty) (depth : Nat) (h : depth < maxDepth diff)
    (cells : List (Fin 3 × Fin 3)) (best : Score)
    (bm : Option (Fin 3 × Fin 3)) (s : TicTacToe) :
    (Score × Option (Fin 3 × Fin 3)) × TicTacToe :=
  match cells with
  | [] => ((best, bm), s)
  | (r, c) :: rest =>
    let s1 : TicTacToe :=
      { s with board := setCell s.board r c (some Mark.X)
               moves_count := s.moves_count + 1 }
    let s2 : TicTacToe := if check_win s1 then { s1 with winner := some Mark.X } else s1
    let res := minimaxRef diff (depth + 1) true s2
    let s4 : TicTacToe :=
      { res.2 with board := setCell res.2.board r c none
                   moves_count := res.2.moves_count - 1
                   winner := none }
    let bb := if Score.blt res.1.score best then (res.1.score, some (r, c)) else (best, bm)
    refMinLoop diff depth h rest bb.1 bb.2 s4
termination_by (maxDepth diff - depth, 0, cells.length)

end

/- Structurally recursive mirrors of the search, used so that concrete runs
can be evaluated inside the kernel: the well-founded `minimax` above does
not reduce definitionally, and threading the mutated state through the whole
search would build terms whose depth grows with the number of nodes visited.
Because the search restores the state after every speculative placement
(proved as `minimax_state_eq` below), each child can soundly be evaluated
against the parent's own state and only the `{'score', 'move'}` value is
returned.  Two mirroring layers are used, each proved pointwise equal to the
previous one:

* `minimaxK`: value-only, fuel-counted (fuel 0 can only be adequate when
  the depth cutoff already fires, so its body is the non-recursive prefix of
  the method), over the unpacked (board, moves_count, winner) fields —
  `current_player` is not an input because the search body never reads it —
  and with the `BEq`/`DecidableEq` instance chains of the hot path replaced
  by first-order matches (`cellIs`, `checkWinF`, `emptiesOf`).
* `minimaxN`: as `minimaxK`, but the grid packed into a single natural
  number (nine base-4 digits in row-major order, 0 empty / 1 X / 2 O, the
  digit of cell (r, c) at weight 4 ^ (3r + c)), the winner field packed the
  same way (0 / 1 / 2), scores packed order-preservingly into naturals
  (float('-inf') as 0, an integer score n as n + 20, float('inf') as 1000 —
  every score the search meets is an integer in [-10, 10]), and the loops
  walking the static cell table `allN` with an inline emptiness test instead
  of materializing the empty-cell list, so that the kernel's accelerated
  natural-number arithmetic carries almost every step. -/

/-- Tests a cell (or the winner field) for a given mark, by direct match. -/
def cellIs (x : Cell) (p : Mark) : Bool :=
  match x, p with
  | some Mark.X, Mark.X => true
  | some Mark.O, Mark.O => true
  | _, _ => false

/-- Tests a cell for emptiness, by direct match. -/
def isEmptyCell (x : Cell) : Bool :=
  match x with
  | none => true
  | some _ => false

/-- Mirror of `check_win_for` with the three-counts turned into
three-conjunctions. -/
def checkWinF (b : Board) (p : Mark) : Bool :=
  (cellIs b.c00 p && cellIs b.c01 p && cellIs b.c02 p) ||
  (cellIs b.c10 p && cellIs b.c11 p && cellIs b.c12 p) ||
  (cellIs b.c20 p && cellIs b.c21 p && cellIs b.c22 p) ||
  (cellIs b.c00 p && cellIs b.c10 p && cellIs b.c20 p) ||
  (cellIs b.c01 p && cellIs b.c11 p && cellIs b.c21 p) ||
  (cellIs b.c02 p && cellIs b.c12 p && cellIs b.c22 p) ||
  (cellIs b.c00 p && cellIs b.c11 p && cellIs b.c22 p) ||
  (cellIs b.c02 p && cellIs b.c11 p && cellIs b.c20 p)

/-- Mirror of `get_empty_cells` as an unrolled cons chain (same row-major
order). -/
def emptiesOf (b : Board) : List (Fin 3 × Fin 3) :=
  let t : List (Fin 3 × Fin 3) := if isEmptyCell b.c22 then [(2, 2)] else []
  let t := if isEmptyCell b.c21 then (2, 1) :: t else t
  let t := if isEmptyCell b.c20 then (2, 0) :: t else t
  let t := if isEmptyCell b.c12 then (1, 2) :: t else t
  let t := if isEmptyCell b.c11 then (1, 1) :: t else t
  let t := if isEmptyCell b.c10 then (1, 0) :: t else t
  let t := if isEmptyCell b.c02 then (0, 2) :: t else t
  let t := if isEmptyCell b.c01 then (0, 1) :: t else t
  if isEmptyCell b.c00 then (0, 0) :: t else t

/-- Value-only maximizing loop over unpacked (board, moves_count) with the
recursive call abstracted as `child`; the entry winner is known to be
`none`. -/
def maxLoopK (child : Score → Score → Board → Nat → Option Mark → SearchResult)
    (cells : List (Fin 3 × Fin 3)) (alpha beta best : Score)
    (bm : Option (Fin 3 × Fin 3)) (b : Board) (mc : Nat) :
    Score × Option (Fin 3 × Fin 3) :=
  match cells with
  | [] => (best, bm)
  | (r, c) :: rest =>
    let b1 := setCell b r c (some Mark.O)
    let w1 : Option Mark := if checkWinF b1 Mark.O then some Mark.O else none
    let res := child alpha beta b1 (mc + 1) w1
    let bb := if Score.blt best res.score then (res.score, some (r, c)) else (best, bm)
    let alpha1 := Score.smax alpha bb.1
    if Score.ble beta alpha1 then bb
    else maxLoopK child rest alpha1 beta bb.1 bb.2 b mc

/-- Value-only minimizing loop over unpacked (board, moves_count). -/
def minLoopK (child : Score → Score → Board → Nat → Option Mark → SearchResult)
    (cells : List (Fin 3 × Fin 3)) (alpha beta best : Score)
    (bm : Option (Fin 3 × Fin 3)) (b : Board) (mc : Nat) :
    Score × Option (Fin 3 × Fin 3) :=
  match cells with
  | [] => (best, bm)
  | (r, c) :: rest =>
    let b1 := setCell b r c (some Mark.X)
    let w1 : Option Mark := if checkWinF b1 Mark.X then some Mark.X else none
    let res := child alpha beta b1 (mc + 1) w1
    let bb := if Score.blt res.score best then (res.score, some (r, c)) else (best, bm)
    let beta1 := Score.smin beta bb.1
    if Score.ble beta1 alpha then bb
    else minLoopK child rest alpha beta1 bb.1 bb.2 b mc

/-- Value-only, fuel-counted presentation of `minimax` over the unpacked
fields the search reads. -/
def minimaxK : Nat → Difficulty → Nat → Bool → Score → Score →
    Board → Nat → Option Mark → SearchResult
  | 0, _, depth, _, _, _, _, mc, w =>
    if cellIs w Mark.O then ⟨.val (10 - (depth : Int)), none⟩
    else if cellIs w Mark.X then ⟨.val ((depth : Int) - 10), none⟩
    else if mc == 9 then ⟨.val 0, none⟩
    else ⟨.val 0, none⟩
  | fuel + 1, diff, depth, isMax, alpha, beta, b, mc, w =>
    if cellIs w Mark.O then ⟨.val (10 - (depth : Int)), none⟩
    else if cellIs w Mark.X then ⟨.val ((depth : Int) - 10), none⟩
    else if mc == 9 then ⟨.val 0, none⟩
    else if maxDepth diff ≤ depth then ⟨.val 0, none⟩
    else if isMax then
      let r := maxLoopK (minimaxK fuel diff (depth + 1) false)
        (emptiesOf b) alpha beta .negInf none b mc
      ⟨r.1, r.2⟩
    else
      let r := minLoopK (minimaxK fuel diff (depth + 1) true)
        (emptiesOf b) alpha beta .posInf none b mc
      ⟨r.1, r.2⟩

/-- The faithful bounded exploration of a Hard-tier game: at every node the
checker demands that X has not won; below a non-terminal node it branches
over every empty cell when X is to move, and follows (and demands one
placement from) the search-based move `ai_move_hard` when O is to move. -/
def hardChecker : Nat → TicTacToe → Bool
  | 0, s => !(decide (s.winner = some Mark.X))
  | n + 1, s =>
    !(decide (s.winner = some Mark.X)) &&
    (if s.game_over then true
     else if s.current_player = Mark.X then
       (get_empty_cells s).all (fun rc => hardChecker n (make_move s rc.1 rc.2).2)
     else
       let s1 := ai_move_hard s
       (s1.moves_count == s.moves_count + 1) && hardChecker n s1)

/-- The base-4 digit of a cell. -/
def cellNat : Cell → Nat
  | none => 0
  | some Mark.X => 1
  | some Mark.O => 2

/-- The packed grid. -/
def encB (b : Board) : Nat :=
  cellNat b.c00 + 4 * cellNat b.c01 + 16 * cellNat b.c02 +
  64 * cellNat b.c10 + 256 * cellNat b.c11 + 1024 * cellNat b.c12 +
  4096 * cellNat b.c20 + 16384 * cellNat b.c21 + 65536 * cellNat b.c22

/-- The packing of the scores the search meets (see the section comment). -/
def encS : Score → Nat
  | .negInf => 0
  | .val n => (n + 20).toNat
  | .posInf => 1000

/-- Mirror of `checkWinF` on the packed grid (`m` is the mark's digit). -/
def checkWinN (bn m : Nat) : Bool :=
  (bn % 4 == m && bn / 4 % 4 == m && bn / 16 % 4 == m) ||
  (bn / 64 % 4 == m && bn / 256 % 4 == m && bn / 1024 % 4 == m) ||
  (bn / 4096 % 4 == m && bn / 16384 % 4 == m && bn / 65536 % 4 == m) ||
  (bn % 4 == m && bn / 64 % 4 == m && bn / 4096 % 4 == m) ||
  (bn / 4 % 4 == m && bn / 256 % 4 == m && bn / 16384 % 4 == m) ||
  (bn / 16 % 4 == m && bn / 1024 % 4 == m && bn / 65536 % 4 == m) ||
  (bn % 4 == m && bn / 256 % 4 == m && bn / 65536 % 4 == m) ||
  (bn / 16 % 4 == m && bn / 256 % 4 == m && bn / 4096 % 4 == m)

/-- The static cell table of the packed loops: digit weight and (row, col)
of each cell, in the row-major order of `allCells`. -/
def allN : List (Nat × Fin 3 × Fin 3) :=
  [(1, 0, 0), (4, 0, 1), (16, 0, 2), (64, 1, 0), (256, 1, 1),
   (1024, 1, 2), (4096, 2, 0), (16384, 2, 1), (65536, 2, 2)]

/-- Packed maximizing loop: walks `allN` (or a suffix), skipping occupied
cells inline. -/
def maxLoopN (child : Nat → Nat → Nat → Nat → Nat → Nat × Option (Fin 3 × Fin 3))
    (cells : List (Nat × Fin 3 × Fin 3)) (alpha beta best : Nat)
    (bm : Option (Fin 3 × Fin 3)) (bn mc : Nat) :
    Nat × Option (Fin 3 × Fin 3) :=
  match cells with
  | [] => (best, bm)
  | (p4, r, c) :: rest =>
    if bn / p4 % 4 == 0 then
      let b1 := bn + 2 * p4
      let w1 : Nat := if checkWinN b1 2 then 2 else 0
      let res := child alpha beta b1 (mc + 1) w1
      let bb := if Nat.blt best res.1 then (res.1, some (r, c)) else (best, bm)
      let alpha1 := if Nat.ble alpha bb.1 then bb.1 else alpha
      if Nat.ble beta alpha1 then bb
      else maxLoopN child rest alpha1 beta bb.1 bb.2 bn mc
    else maxLoopN child rest alpha beta best bm bn mc

/-- Packed minimizing loop. -/
def minLoopN (child : Nat → Nat → Nat → Nat → Nat → Nat × Option (Fin 3 × Fin 3))
    (cells : List (Nat × Fin 3 × Fin 3)) (alpha beta best : Nat)
    (bm : Option (Fin 3 × Fin 3)) (bn mc : Nat) :
    Nat × Option (Fin 3 × Fin 3) :=
  match cells with
  | [] => (best, bm)
  | (p4, r, c) :: rest =>
    if bn / p4 % 4 == 0 then
      let b1 := bn + p4
      let w1 : Nat := if checkWinN b1 1 then 1 else 0
      let res := child alpha beta b1 (mc + 1) w1
      let bb := if Nat.blt res.1 best then (res.1, some (r, c)) else (best, bm)
      let beta1 := if Nat.ble bb.1 beta then bb.1 else beta
      if Nat.ble beta1 alpha then bb
      else minLoopN child rest alpha beta1 bb.1 bb.2 bn mc
    else minLoopN child rest alpha beta best bm bn mc

/-- Packed presentation of `minimaxK`. -/
def minimaxN : Nat → Difficulty → Nat → Bool → Nat → Nat →
    Nat → Nat → Nat → Nat × Option (Fin 3 × Fin 3)
  | 0, _, depth, _, _, _, _, mc, w =>
    if w == 2 then (30 - depth, none)
    else if w == 1 then (depth + 10, none)
    else if mc == 9 then (20, none)
    else (20, none)
  | fuel + 1, diff, depth, isMax, alpha, beta, bn, mc, w =>
    if w == 2 then (30 - depth, none)
    else if w == 1 then (depth + 10, none)
    else if mc == 9 then (20, none)
    else if Nat.ble (maxDepth diff) depth then (20, none)
    else if isMax then
      maxLoopN (minimaxN fuel diff (depth + 1) false) allN alpha beta 0 none bn mc
    else
      minLoopN (minimaxN fuel diff (depth + 1) true) allN alpha beta 1000 none bn mc

/-- Mirror of `ai_move_hard` through the packed search. -/
def ai_move_hardN (s : TicTacToe) : TicTacToe :=
  let r := minimaxN 9 s.ai_difficulty 0 true 0 1000
    (encB s.board) s.moves_count (cellNat s.winner)
  match r.2 with
  | some (row, col) => (make_move s row col).2
  | none => s

/-- Mirror of `hardChecker` driven by the packed search. -/
def hardCheckerK : Nat → TicTacToe → Bool
  | 0, s => !(cellIs s.winner Mark.X)
  | n + 1, s =>
    !(cellIs s.winner Mark.X) &&
    (if s.game_over then true
     else if s.current_player = Mark.X then
       (emptiesOf s.board).all (fun rc => hardCheckerK n (make_move s rc.1 rc.2).2)
     else
       let s1 := ai_move_hardN s
       (s1.moves_count == s.moves_count + 1) && hardCheckerK n s1)

/-- The region of scores on which the packing `encS` is order-faithful:
every integer score the search can produce lies in it. -/
def SVal : Score → Prop
  | .val n => -20 < n ∧ n < 980
  | _ => True

/-- A packed cell-table entry (weight, row, col) is good when dividing by
its weight extracts its cell's digit and, on an empty cell, adding
`digit * weight` writes the cell. -/
def GoodEntry (e : Nat × Fin 3 × Fin 3) : Prop :=
  ∀ b : Board,
    (encB b / e.1 % 4 = cellNat (getCell b e.2.1 e.2.2)) ∧
    ∀ m : Mark, getCell b e.2.1 e.2.2 = none →
      encB (setCell b e.2.1 e.2.2 (some m)) = encB b + cellNat (some m) * e.1

/-- The state invariant of reachable game states: the move count matches
the grid, the winner flag is sound and complete for actual wins, a set
winner implies the game is over, a drawn game is full, and a running game is
not full. -/
def Inv (s : TicTacToe) : Prop :=
  s.moves_count = nonEmptyCount s.board ∧
  (∀ m, s.winner = some m → check_win_for s.board m = true) ∧
  (s.winner = none → ∀ m, check_win_for s.board m = false) ∧
  (s.winner ≠ none → s.game_over = true) ∧
  (s.game_over = true → s.winner = none → s.moves_count = 9) ∧
  (s.game_over = false → s.moves_count < 9)

/-! ### Order kit for `Score` -/

instance : LE Score := ⟨fun a b => Score.ble a b = true⟩

instance : LT Score := ⟨fun a b => Score.blt a b = true⟩

lemma Score.le_def (a b : Score) : (a ≤ b) = (Score.ble a b = true) := rfl

lemma Score.lt_def (a b : Score) : (a < b) = (Score.blt a b = true) := rfl

instance : LinearOrder Score where
  le_refl a := by cases a <;> simp [Score.le_def, Score.ble]
  le_trans a b c := by
    cases a <;> cases b <;> cases c <;>
      simp [Score.le_def, Score.ble] <;> omega
  le_antisymm a b := by
    cases a <;> cases b <;>
      simp [Score.le_def, Score.ble] <;> omega
  le_total a b := by
    cases a <;> cases b <;>
      simp [Score.le_def, Score.ble] <;> omega
  lt_iff_le_not_le a b := by
    cases a <;> cases b <;>
      simp [Score.le_def, Score.lt_def, Score.ble, Score.blt] <;> omega
  decidableLE a b := inferInstanceAs (Decidable (_ = true))

lemma Score.ble_iff_le {a b : Score} : Score.ble a b = true ↔ a ≤ b := Iff.rfl

lemma Score.ble_false_iff_lt {a b : Score} : Score.ble a b = false ↔ b < a := by
  constructor
  · intro h
    have : ¬ a ≤ b := by simp [Score.le_def, h]
    exact lt_of_not_le this
  · intro h
    by_contra hc
    have : a ≤ b := by
      simp [Score.le_def]
      revert hc
      cases Score.ble a b <;> simp
    exact absurd this (not_le_of_lt h)

lemma Score.blt_iff_lt {a b : Score} : Score.blt a b = true ↔ a < b := Iff.rfl

lemma Score.blt_false_iff_le {a b : Score} : Score.blt a b = false ↔ b ≤ a := by
  constructor
  · intro h
    have hb : Score.ble b a ≠ false := by
      intro hf
      simp [Score.blt, hf] at h
    simp [Score.le_def]
    revert hb
    cases Score.ble b a <;> simp
  · intro h
    simp [Score.blt]
    exact h

lemma Score.smax_eq_max (a b : Score) : Score.smax a b = max a b := by
  cases hb : Score.ble a b
  · have hba : b ≤ a := le_of_lt (Score.ble_false_iff_lt.mp hb)
    simp [Score.smax, hb, max_eq_left hba]
  · have h : a ≤ b := hb
    simp [Score.smax, hb, max_eq_right h]

lemma Score.smin_eq_min (a b : Score) : Score.smin a b = min a b := by
  cases hb : Score.ble b a
  · have hab : a ≤ b := le_of_lt (Score.ble_false_iff_lt.mp hb)
    simp [Score.smin, hb, min_eq_left hab]
  · have h : b ≤ a := hb
    simp [Score.smin, hb, min_eq_right h]

/-! ### Board and cell lemmas -/

lemma getCell_setCell_same (b : Board) (r c : Fin 3) (v : Cell) :
    getCell (setCell b r c v) r c = v := by
  fin_cases r <;> fin_cases c <;> simp [getCell, setCell]

lemma getCell_setCell_other (b : Board) (r c i j : Fin 3) (v : Cell)
    (h : ¬(i = r ∧ j = c)) :
    getCell (setCell b r c v) i j = getCell b i j := by
  fin_cases r <;> fin_cases c <;> fin_cases i <;> fin_cases j <;>
    simp_all [getCell, setCell]

lemma setCell_setCell_cancel (b : Board) (r c : Fin 3) (v : Cell)
    (h : getCell b r c = none) :
    setCell (setCell b r c v) r c none = b := by
  fin_cases r <;> fin_cases c <;> cases b <;> simp_all [getCell, setCell]

lemma mem_allCells (p : Fin 3 × Fin 3) : p ∈ allCells := by
  rcases p with ⟨r, c⟩
  fin_cases r <;> fin_cases c <;> simp [allCells]

lemma mem_get_empty_cells {s : TicTacToe} {p : Fin 3 × Fin 3} :
    p ∈ get_empty_cells s ↔ getCell s.board p.1 p.2 = none := by
  simp [get_empty_cells, List.mem_filter, mem_allCells]

lemma nonEmptyCount_setCell (b : Board) (r c : Fin 3) (m : Mark)
    (h : getCell b r c = none) :
    nonEmptyCount (setCell b r c (some m)) = nonEmptyCount b + 1 := by
  fin_cases r <;> fin_cases c <;>
  · simp [getCell] at h
    simp [nonEmptyCount, ← List.countP_eq_length_filter, allCells,
      List.countP_cons, setCell, getCell, h]
    try omega

/-! ### Win-test lemmas -/

lemma cellIs_eq_beq : ∀ (x : Cell) (p : Mark), cellIs x p = (x == some p) := by
  decide

lemma count3_eq : ∀ (x y z : Cell) (p : Mark),
    (([x, y, z].count (some p)) == 3) = (x == some p && y == some p && z == some p) := by
  decide

lemma checkWinF_eq (b : Board) (p : Mark) : checkWinF b p = check_win_for b p := by
  simp only [checkWinF, check_win_for, cellIs_eq_beq, count3_eq]

lemma count2_ne3 : ∀ (x y : Cell) (q : Mark), ¬ List.count (some q) [x, y] = 3 := by
  decide

lemma check_win_other_preserved (b : Board) (r c : Fin 3) (p q : Mark)
    (hpq : q ≠ p) (h : check_win_for b q = false) :
    check_win_for (setCell b r c (some p)) q = false := by
  have hne : ((some p : Cell) == some q) = false := by
    simp only [beq_eq_false_iff_ne, ne_eq, Option.some.injEq]
    exact fun hh => hpq hh.symm
  fin_cases r <;> fin_cases c <;>
    simp_all [check_win_for, setCell, count3_eq, hne, count2_ne3]

/-! ### Lemmas about `make_move` -/

lemma make_move_fail {s : TicTacToe} {row col : Fin 3}
    (h : s.game_over = true ∨ getCell s.board row col ≠ none) :
    make_move s row col = (false, s) := by
  rcases h with h | h
  · simp [make_move, h]
  · by_cases hg : s.game_over
    · simp [make_move, hg]
    · simp [make_move, hg, h]

lemma make_move_ai_fields (s : TicTacToe) (row col : Fin 3) :
    ((make_move s row col).2.ai_enabled = s.ai_enabled ∧
     (make_move s row col).2.ai_difficulty = s.ai_difficulty) := by
  simp only [make_move]
  split_ifs <;> simp

lemma mark_cases (m p : Mark) : m = p ∨ m = other p := by
  cases m <;> cases p <;> simp [other]

lemma other_ne (p : Mark) : other p ≠ p := by
  cases p <;> simp [other]

lemma Inv_make_move {s : TicTacToe} (hs : Inv s) (row col : Fin 3) :
    Inv (make_move s row col).2 := by
  obtain ⟨hc, hwin, hnowin, hws, hdraw, hrun⟩ := hs
  by_cases hg : s.game_over = true
  · rw [make_move_fail (Or.inl hg)]
    exact ⟨hc, hwin, hnowin, hws, hdraw, hrun⟩
  · by_cases hocc : getCell s.board row col = none
    · have hwnone : s.winner = none := by
        cases hw : s.winner
        · rfl
        · exact absurd (hws (by simp [hw])) hg
      have hgf : s.game_over = false := by
        cases hgg : s.game_over
        · rfl
        · exact absurd hgg hg
      have hcount := nonEmptyCount_setCell s.board row col s.current_player hocc
      unfold make_move
      rw [if_neg hg, if_neg (by simp [hocc])]
      by_cases hwon : check_win
          { s with
            board := setCell s.board row col (some s.current_player)
            moves_count := s.moves_count + 1 } = true
      · rw [if_pos hwon]
        refine ⟨?_, ?_, ?_, ?_, ?_, ?_⟩
        · show s.moves_count + 1 = _
          rw [hcount]
          omega
        · intro m hm
          obtain rfl : s.current_player = m := by simpa using hm
          simpa [check_win] using hwon
        · intro hcon
          simp at hcon
        · intro _
          rfl
        · intro _ hcon
          simp at hcon
        · intro hcon
          simp at hcon
      · rw [if_neg hwon]
        have hnowin' : ∀ m, check_win_for
            (setCell s.board row col (some s.current_player)) m = false := by
          intro m
          rcases mark_cases m s.current_player with hm | hm
          · subst hm
            simpa [check_win] using hwon
          · subst hm
            exact check_win_other_preserved s.board row col s.current_player
              (other s.current_player) (other_ne s.current_player)
              (hnowin hwnone (other s.current_player))
        by_cases hfull : s.moves_count + 1 = 9
        · rw [if_pos hfull]
          refine ⟨?_, ?_, ?_, ?_, ?_, ?_⟩
          · show s.moves_count + 1 = _
            rw [hcount]
            omega
          · intro m hm
            simp [hwnone] at hm
          · intro _
            exact hnowin'
          · intro hcon
            exact absurd hwnone hcon
          · intro _ _
            exact hfull
          · intro hcon
            simp at hcon
        · rw [if_neg hfull]
          have hlt : s.moves_count < 9 := hrun hgf
          refine ⟨?_, ?_, ?_, ?_, ?_, ?_⟩
          · show s.moves_count + 1 = _
            rw [hcount]
            omega
          · intro m hm
            simp [hwnone] at hm
          · intro _
            exact hnowin'
          · intro hcon
            exact absurd hwnone hcon
          · intro hcon _
            exact absurd hcon hg
          · intro _
            show s.moves_count + 1 < 9
            omega
    · rw [make_move_fail (Or.inr hocc)]
      exact ⟨hc, hwin, hnowin, hws, hdraw, hrun⟩

/-! ### State restoration: the searches leave the board exactly as found -/

lemma undo_place (s t : TicTacToe) (r c : Fin 3) (m : Mark)
    (hb : t.board = setCell s.board r c (some m))
    (hmc : t.moves_count = s.moves_count + 1)
    (hcp : t.current_player = s.current_player)
    (hgo : t.game_over = s.game_over)
    (hae : t.ai_enabled = s.ai_enabled)
    (had : t.ai_difficulty = s.ai_difficulty)
    (hw : s.winner = none)
    (hempty : getCell s.board r c = none) :
    ({ t with board := setCell t.board r c none
              moves_count := t.moves_count - 1
              winner := none } : TicTacToe) = s := by
  obtain ⟨bd, cp, go, w, mc, ae, ad⟩ := s
  obtain ⟨bd', cp', go', w', mc', ae', ad'⟩ := t
  simp_all [setCell_setCell_cancel]

lemma maxLoop_state_eq (diff : Difficulty) (depth : Nat) (h : depth < maxDepth diff)
    (cells : List (Fin 3 × Fin 3)) (alpha beta best : Score)
    (bm : Option (Fin 3 × Fin 3)) (s : TicTacToe)
    (IH : ∀ isMax alpha' beta' s', (minimax diff (depth + 1) isMax alpha' beta' s').2 = s')
    (hw : s.winner = none)
    (hcells : ∀ rc ∈ cells, getCell s.board rc.1 rc.2 = none) :
    (maxLoop diff depth h cells alpha beta best bm s).2 = s := by
  induction cells generalizing alpha best bm with
  | nil => rw [maxLoop]
  | cons hd rest ihc =>
    obtain ⟨r, c⟩ := hd
    rw [maxLoop]
    simp only []
    have hhd : getCell s.board r c = none := hcells (r, c) (by simp)
    set s1 : TicTacToe :=
      { s with board := setCell s.board r c (some Mark.O)
               moves_count := s.moves_count + 1 } with hs1
    set s2 : TicTacToe := if check_win s1 then { s1 with winner := some Mark.O } else s1 with hs2
    have hres : (minimax diff (depth + 1) false alpha beta s2).2 = s2 := IH _ _ _ _
    rw [hres]
    have hs4 : ({ s2 with
        board := setCell s2.board r c none
        moves_count := s2.moves_count - 1
        winner := none } : TicTacToe) = s := by
      apply undo_place s s2 r c Mark.O _ _ _ _ _ _ hw hhd
      all_goals rw [hs2]
      all_goals split_ifs <;> simp [hs1]
    rw [hs4]
    split_ifs <;>
      first
        | rfl
        | exact ihc _ _ _ (fun rc hrc => hcells rc (by simp [hrc]))

lemma minLoop_state_eq (diff : Difficulty) (depth : Nat) (h : depth < maxDepth diff)
    (cells : List (Fin 3 × Fin 3)) (alpha beta best : Score)
    (bm : Option (Fin 3 × Fin 3)) (s : TicTacToe)
    (IH : ∀ isMax alpha' beta' s', (minimax diff (depth + 1) isMax alpha' beta' s').2 = s')
    (hw : s.winner = none)
    (hcells : ∀ rc ∈ cells, getCell s.board rc.1 rc.2 = none) :
    (minLoop diff depth h cells alpha beta best bm s).2 = s := by
  induction cells generalizing beta best bm with
  | nil => rw [minLoop]
  | cons hd rest ihc =>
    obtain ⟨r, c⟩ := hd
    rw [minLoop]
    simp only []
    have hhd : getCell s.board r c = none := hcells (r, c) (by simp)
    set s1 : TicTacToe :=
      { s with board := setCell s.board r c (some Mark.X)
               moves_count := s.moves_count + 1 } with hs1
    set s2 : TicTacToe := if check_win s1 then { s1 with winner := some Mark.X } else s1 with hs2
    have hres : (minimax diff (depth + 1) true alpha beta s2).2 = s2 := IH _ _ _ _
    rw [hres]
    have hs4 : ({ s2 with
        board := setCell s2.board r c none
        moves_count := s2.moves_count - 1
        winner := none } : TicTacToe) = s := by
      apply undo_place s s2 r c Mark.X _ _ _ _ _ _ hw hhd
      all_goals rw [hs2]
      all_goals split_ifs <;> simp [hs1]
    rw [hs4]
    split_ifs <;>
      first
        | rfl
        | exact ihc _ _ _ (fun rc hrc => hcells rc (by simp [hrc]))

lemma minimax_state_eq_aux : ∀ (b : Nat) (diff : Difficulty) (depth : Nat),
    maxDepth diff - depth ≤ b → ∀ (isMax : Bool) (alpha beta : Score) (s : TicTacToe),
    (minimax diff depth isMax alpha beta s).2 = s := by
  intro b
  induction b with
  | zero =>
    intro diff depth hb isMax alpha beta s
    rw [minimax]
    split_ifs <;> first | rfl | omega
  | succ b ih =>
    intro diff depth hb isMax alpha beta s
    rw [minimax]
    split_ifs with h1 h2 h3 h4 h5
    · rfl
    · rfl
    · rfl
    · rfl
    · -- maximizing branch
      simp only []
      have hwn : s.winner = none := by
        cases hwv : s.winner with
        | none => rfl
        | some m => cases m <;> simp_all
      rw [maxLoop_state_eq diff depth (by omega) _ alpha beta _ _ _
        (fun isMax' a' b' s' => ih diff (depth + 1) (by omega) isMax' a' b' s')
        (by simpa using hwn)
        (fun rc hrc => by
          have := mem_get_empty_cells.mp hrc
          simpa using this)]
    · -- minimizing branch
      simp only []
      have hwn : s.winner = none := by
        cases hwv : s.winner with
        | none => rfl
        | some m => cases m <;> simp_all
      rw [minLoop_state_eq diff depth (by omega) _ alpha beta _ _ _
        (fun isMax' a' b' s' => ih diff (depth + 1) (by omega) isMax' a' b' s')
        (by simpa using hwn)
        (fun rc hrc => by
          have := mem_get_empty_cells.mp hrc
          simpa using this)]

lemma minimax_state_eq (diff : Difficulty) (depth : Nat) (isMax : Bool)
    (alpha beta : Score) (s : TicTacToe) :
    (minimax diff depth isMax alpha beta s).2 = s :=
  minimax_state_eq_aux (maxDepth diff - depth) diff depth le_rfl isMax alpha beta s

lemma refMaxLoop_state_eq (diff : Difficulty) (depth : Nat) (h : depth < maxDepth diff)
    (cells : List (Fin 3 × Fin 3)) (best : Score)
    (bm : Option (Fin 3 × Fin 3)) (s : TicTacToe)
    (IH : ∀ isMax s', (minimaxRef diff (depth + 1) isMax s').2 = s')
    (hw : s.winner = none)
    (hcells : ∀ rc ∈ cells, getCell s.board rc.1 rc.2 = none) :
    (refMaxLoop diff depth h cells best bm s).2 = s := by
  induction cells generalizing best bm with
  | nil => rw [refMaxLoop]
  | cons hd rest ihc =>
    obtain ⟨r, c⟩ := hd
    rw [refMaxLoop]
    simp only []
    have hhd : getCell s.board r c = none := hcells (r, c) (by simp)
    set s1 : TicTacToe :=
      { s with board := setCell s.board r c (some Mark.O)
               moves_count := s.moves_count + 1 } with hs1
    set s2 : TicTacToe := if check_win s1 then { s1 with winner := some Mark.O } else s1 with hs2
    have hres : (minimaxRef diff (depth + 1) false s2).2 = s2 := IH _ _
    rw [hres]
    have hs4 : ({ s2 with
        board := setCell s2.board r c none
        moves_count := s2.moves_count - 1
        winner := none } : TicTacToe) = s := by
      apply undo_place s s2 r c Mark.O _ _ _ _ _ _ hw hhd
      all_goals rw [hs2]
      all_goals split_ifs <;> simp [hs1]
    rw [hs4]
    exact ihc _ _ (fun rc hrc => hcells rc (by simp [hrc]))

lemma refMinLoop_state_eq (diff : Difficulty) (depth : Nat) (h : depth < maxDepth diff)
    (cells : List (Fin 3 × Fin 3)) (best : Score)
    (bm : Option (Fin 3 × Fin 3)) (s : TicTacToe)
    (IH : ∀ isMax s', (minimaxRef diff (depth + 1) isMax s').2 = s')
    (hw : s.winner = none)
    (hcells : ∀ rc ∈ cells, getCell s.board rc.1 rc.2 = none) :
    (refMinLoop diff depth h cells best bm s).2 = s := by
  induction cells generalizing best bm with
  | nil => rw [refMinLoop]
  | cons hd rest ihc =>
    obtain ⟨r, c⟩ := hd
    rw [refMinLoop]
    simp only []
    have hhd : getCell s.board r c = none := hcells (r, c) (by simp)
    set s1 : TicTacToe :=
      { s with board := setCell s.board r c (some Mark.X)
               moves_count := s.moves_count + 1 } with hs1
    set s2 : TicTacToe := if check_win s1 then { s1 with winner := some Mark.X } else s1 with hs2
    have hres : (minimaxRef diff (depth + 1) true s2).2 = s2 := IH _ _
    rw [hres]
    have hs4 : ({ s2 with
        board := setCell s2.board r c none
        moves_count := s2.moves_count - 1
        winner := none } : TicTacToe) = s := by
      apply undo_place s s2 r c Mark.X _ _ _ _ _ _ hw hhd
      all_goals rw [hs2]
      all_goals split_ifs <;> simp [hs1]
    rw [hs4]
    exact ihc _ _ (fun rc hrc => hcells rc (by simp [hrc]))

lemma minimaxRef_state_eq_aux : ∀ (b : Nat) (diff : Difficulty) (depth : Nat),
    maxDepth diff - depth ≤ b → ∀ (isMax : Bool) (s : TicTacToe),
    (minimaxRef diff depth isMax s).2 = s := by
  intro b
  induction b with
  | zero =>
    intro diff depth hb isMax s
    rw [minimaxRef]
    split_ifs <;> first | rfl | omega
  | succ b ih =>
    intro diff depth hb isMax s
    rw [minimaxRef]
    split_ifs with h1 h2 h3 h4 h5
    · rfl
    · rfl
    · rfl
    · rfl
    · simp only []
      have hwn : s.winner = none := by
        cases hwv : s.winner with
        | none => rfl
        | some m => cases m <;> simp_all
      rw [refMaxLoop_state_eq diff depth (by omega) _ _ _ _
        (fun isMax' s' => ih diff (depth + 1) (by omega) isMax' s')
        (by simpa using hwn)
        (fun rc hrc => by
          have := mem_get_empty_cells.mp hrc
          simpa using this)]
    · simp only []
      have hwn : s.winner = none := by
        cases hwv : s.winner with
        | none => rfl
        | some m => cases m <;> simp_all
      rw [refMinLoop_state_eq diff depth (by omega) _ _ _ _
        (fun isMax' s' => ih diff (depth + 1) (by omega) isMax' s')
        (by simpa using hwn)
        (fun rc hrc => by
          have := mem_get_empty_cells.mp hrc
          simpa using this)]

lemma minimaxRef_state_eq (diff : Difficulty) (depth : Nat) (isMax : Bool)
    (s : TicTacToe) : (minimaxRef diff depth isMax s).2 = s :=
  minimaxRef_state_eq_aux (maxDepth diff - depth) diff depth le_rfl isMax s

/-! ### The invariant holds in every reachable state -/

lemma Inv_initState : Inv initState := by
  unfold Inv
  decide

lemma Inv_reset (s : TicTacToe) : Inv (reset_game s) := by
  refine ⟨?_, ?_, ?_, ?_, ?_, ?_⟩
  · show (0 : Nat) = nonEmptyCount emptyBoard
    decide
  · intro m hm
    simp [reset_game] at hm
  · intro _ m
    show check_win_for emptyBoard m = false
    cases m <;> decide
  · intro hcon
    simp [reset_game] at hcon
  · intro hcon
    simp [reset_game] at hcon
  · intro _
    show (0 : Nat) < 9
    decide

lemma Inv_config {s : TicTacToe} (hs : Inv s) (e : Bool) (d : Difficulty) :
    Inv { s with ai_enabled := e, ai_difficulty := d } := hs

lemma Inv_ai_move_hard {s : TicTacToe} (hs : Inv s) : Inv (ai_move_hard s) := by
  unfold ai_move_hard
  simp only [minimax_state_eq]
  rcases hmv : (minimax s.ai_difficulty 0 true Score.negInf Score.posInf s).1.move
    with _ | ⟨row, col⟩
  · exact hs
  · exact Inv_make_move hs row col

lemma Inv_ai_move_easy {s : TicTacToe} (hs : Inv s) (pick : Nat) :
    Inv (ai_move_easy s pick) := by
  dsimp only [ai_move_easy]
  split_ifs with hc
  · exact hs
  · exact Inv_make_move hs _ _

lemma Inv_ai_move {s : TicTacToe} (hs : Inv s) (coin : Bool) (pick : Nat) :
    Inv (ai_move s coin pick) := by
  unfold ai_move
  rcases s.ai_difficulty
  · exact Inv_ai_move_easy hs pick
  · unfold ai_move_medium
    split_ifs
    · exact Inv_ai_move_hard hs
    · exact Inv_ai_move_easy hs pick
  · exact Inv_ai_move_hard hs

lemma reachable_inv {s : TicTacToe} (hs : Reachable s) : Inv s := by
  induction hs with
  | init => exact Inv_initState
  | config s e d _ ih => exact Inv_config ih e d
  | place s row col _ ih => exact Inv_make_move ih row col
  | reset s _ _ => exact Inv_reset s
  | ai s coin pick _ ih => exact Inv_ai_move ih coin pick

/-! ### Claim theorems -/

/-- C1: for every row or col outside 0..2, `attemptMove` (the §6 interface:
the coordinate guard of the front-ends composed with `make_move`) rejects
the move before touching the board state: it returns `False` and the state —
grid, move count, turn marker and outcome flags — is returned unchanged. -/
theorem claim_c1 (s : TicTacToe) (row col : Int)
    (h : row < 0 ∨ 2 < row ∨ col < 0 ∨ 2 < col) :
    attemptMove s row col = (false, s) := by
  unfold attemptMove
  rw [dif_neg (by omega)]

/-- Witness for C1 at the concrete out-of-range coordinate (5, 0). -/
theorem claim_c1_witness :
    ((5 : Int) < 0 ∨ 2 < (5 : Int) ∨ (0 : Int) < 0 ∨ 2 < (0 : Int)) ∧
    attemptMove initState 5 0 = (false, initState) :=
  ⟨by decide, claim_c1 initState 5 0 (by decide)⟩

/-- C2: for every starting state, depth, side, and alpha/beta window, the
`minimax` search returns the state exactly as found — grid, move count,
turn marker, winner flag and game-over flag (indeed the whole state record)
are equal to their values before the call, on every exit path including
pruning breaks. -/
theorem claim_c2 (diff : Difficulty) (depth : Nat) (isMax : Bool)
    (alpha beta : Score) (s : TicTacToe) :
    (minimax diff depth isMax alpha beta s).2 = s :=
  minimax_state_eq diff depth isMax alpha beta s

/-- C5: whenever the game is already terminal (the game-over flag is set,
covering both Won and Drawn outcomes) or the in-range target cell is
occupied, `make_move` returns `False` and the state is unchanged. -/
theorem claim_c5 (s : TicTacToe) (row col : Fin 3)
    (h : s.game_over = true ∨ getCell s.board row col ≠ none) :
    make_move s row col = (false, s) :=
  make_move_fail h

/-- Witness for C5: a terminal state rejects a move, and a fresh state with
an occupied corner rejects a move at that corner. -/
theorem claim_c5_witness :
    make_move { initState with game_over := true } 0 0 =
      (false, { initState with game_over := true }) ∧
    make_move { initState with board := setCell emptyBoard 0 0 (some Mark.X) } 0 0 =
      (false, { initState with board := setCell emptyBoard 0 0 (some Mark.X) }) :=
  ⟨claim_c5 _ 0 0 (Or.inl (by decide)),
   claim_c5 _ 0 0 (Or.inr (by decide))⟩

/-- C6: in every state reachable from the fresh state by any sequence of
configuration, `make_move`, `reset_game` and computer-move operations, the
move count equals the number of non-empty cells of the grid. -/
theorem claim_c6 (s : TicTacToe) (h : Reachable s) :
    s.moves_count = nonEmptyCount s.board :=
  (reachable_inv h).1

/-- Witness for C6: the fresh state and a state after two placements. -/
theorem claim_c6_witness :
    initState.moves_count = nonEmptyCount initState.board ∧
    ((make_move (make_move initState 0 0).2 1 1).2.moves_count =
      nonEmptyCount (make_move (make_move initState 0 0).2 1 1).2.board) :=
  ⟨claim_c6 initState Reachable.init,
   claim_c6 _ (Reachable.place _ 1 1 (Reachable.place _ 0 0 Reachable.init))⟩

/-- C7: in every reachable state (in particular after any sequence of
successful moves from the fresh state), the outcome is Won(m) — winner flag
`some m` — only if `check_win_for` (the spec's `hasWin`) holds of m, and the
outcome is Drawn — game over with no winner — only if the board is full
(all 9 cells non-empty) and no mark has a win. -/
theorem claim_c7 (s : TicTacToe) (h : Reachable s) :
    (∀ m, s.winner = some m → check_win_for s.board m = true) ∧
    (s.game_over = true → s.winner = none →
      nonEmptyCount s.board = 9 ∧ ∀ m, check_win_for s.board m = false) := by
  obtain ⟨hc, hwin, hnowin, _, hdraw, _⟩ := reachable_inv h
  exact ⟨hwin, fun hgo hw => ⟨by rw [← hc]; exact hdraw hgo hw, hnowin hw⟩⟩

/-- Witness for C7: a five-move game in which X completes the top row; the
winner flag is X and the theorem yields the corresponding actual win. -/
theorem claim_c7_witness :
    check_win_for (make_move (make_move (make_move (make_move (make_move
      initState 0 0).2 1 0).2 0 1).2 1 1).2 0 2).2.board Mark.X = true :=
  (claim_c7 _ (Reachable.place _ 0 2 (Reachable.place _ 1 1 (Reachable.place _ 0 1
    (Reachable.place _ 1 0 (Reachable.place _ 0 0 Reachable.init)))))).1
    Mark.X (by decide)

/-- C4 counterexample: from the position X X · / O O · / · · · with X to
move, placing at (0, 2) succeeds and wins, but the turn marker still reads
X — it did not toggle to the other mark as the claim demands for every
successful placement. -/
theorem claim_c4_counterexample :
    (make_move ⟨⟨some Mark.X, some Mark.X, none, some Mark.O, some Mark.O,
        none, none, none, none⟩, Mark.X, false, none, 4, false,
        Difficulty.medium⟩ 0 2).1 = true ∧
    (make_move ⟨⟨some Mark.X, some Mark.X, none, some Mark.O, some Mark.O,
        none, none, none, none⟩, Mark.X, false, none, 4, false,
        Difficulty.medium⟩ 0 2).2.current_player = Mark.X ∧
    other Mark.X ≠ Mark.X := by
  refine ⟨by decide, by decide, by decide⟩

/-- C4 as amended: after a successful placement the turn marker toggles to
the other mark exactly when the resulting outcome is still in progress; a
successful placement that ends the game (Won or Drawn) leaves the turn
marker unchanged. -/
theorem claim_c4 (s : TicTacToe) (row col : Fin 3)
    (h : (make_move s row col).1 = true) :
    ((make_move s row col).2.game_over = false →
      (make_move s row col).2.current_player = other s.current_player) ∧
    ((make_move s row col).2.game_over = true →
      (make_move s row col).2.current_player = s.current_player) := by
  unfold make_move at h ⊢
  dsimp only at h ⊢
  split_ifs at h ⊢ with h1 h2 h3 h4
  · exact ⟨fun hcon => hcon.elim, fun _ => rfl⟩
  · exact ⟨fun hcon => hcon.elim, fun _ => rfl⟩
  · exact ⟨fun _ => rfl, fun hcon => absurd hcon h1⟩

/-- Witness for C4: the first move of a fresh game keeps the game running
and toggles the turn marker from X to O. -/
theorem claim_c4_witness :
    (make_move initState 0 0).2.current_player = other initState.current_player :=
  (claim_c4 initState 0 0 (by decide)).1 (by decide)

/-- C8: the tier table is Easy = 1, Medium = 3, Hard = 9, and at every node
of the search: a position whose winner flag is the maximizing side O scores
`10 − depth`; one whose winner flag is X scores `depth − 10`; a drawn
position (no winner, move count 9) scores 0; and a node at or beyond the
tier's depth limit (no winner, not full) returns score 0 — these four
branches return before any recursive exploration. -/
theorem claim_c8 (diff : Difficulty) (depth : Nat) (isMax : Bool)
    (alpha beta : Score) (s : TicTacToe) :
    (maxDepth .easy = 1 ∧ maxDepth .medium = 3 ∧ maxDepth .hard = 9) ∧
    (s.winner = some Mark.O →
      (minimax diff depth isMax alpha beta s).1.score = .val (10 - (depth : Int))) ∧
    (s.winner = some Mark.X →
      (minimax diff depth isMax alpha beta s).1.score = .val ((depth : Int) - 10)) ∧
    (s.winner = none → s.moves_count = 9 →
      (minimax diff depth isMax alpha beta s).1.score = .val 0) ∧
    (s.winner = none → s.moves_count ≠ 9 → maxDepth diff ≤ depth →
      (minimax diff depth isMax alpha beta s).1.score = .val 0) := by
  refine ⟨⟨rfl, rfl, rfl⟩, ?_, ?_, ?_, ?_⟩
  · intro hw
    rw [minimax, if_pos hw]
  · intro hw
    rw [minimax, if_neg (by simp [hw]), if_pos hw]
  · intro hw hmc
    rw [minimax, if_neg (by simp [hw]), if_neg (by simp [hw]),
      if_pos (by simp [is_board_full, hmc])]
  · intro hw hmc hd
    rw [minimax, if_neg (by simp [hw]), if_neg (by simp [hw]),
      if_neg (by simp [is_board_full, hmc]), dif_pos hd]

/-- Witness for C8 at depth 2 under the Medium tier: an O-win scores 8, an
X-win scores −8, a drawn full board scores 0, and a depth-exhausted node
(depth 3 at limit 3) scores 0. -/
theorem claim_c8_witness :
    (minimax .medium 2 true .negInf .posInf
      { initState with winner := some Mark.O }).1.score = .val 8 ∧
    (minimax .medium 2 true .negInf .posInf
      { initState with winner := some Mark.X }).1.score = .val (-8) ∧
    (minimax .medium 2 true .negInf .posInf
      { initState with moves_count := 9 }).1.score = .val 0 ∧
    (minimax .medium 3 true .negInf .posInf
      { initState with moves_count := 5 }).1.score = .val 0 := by
  refine ⟨?_, ?_, ?_, ?_⟩
  · have := (claim_c8 .medium 2 true .negInf .posInf
      { initState with winner := some Mark.O }).2.1 rfl
    simpa using this
  · have := (claim_c8 .medium 2 true .negInf .posInf
      { initState with winner := some Mark.X }).2.2.1 rfl
    simpa using this
  · exact (claim_c8 .medium 2 true .negInf .posInf
      { initState with moves_count := 9 }).2.2.2.1 rfl rfl
  · exact (claim_c8 .medium 3 true .negInf .posInf
      { initState with moves_count := 5 }).2.2.2.2 rfl (by decide) (by decide)

lemma minimax_move_none_of_no_cells (diff : Difficulty) (depth : Nat)
    (isMax : Bool) (alpha beta : Score) (s : TicTacToe)
    (h : get_empty_cells s = []) :
    (minimax diff depth isMax alpha beta s).1.move = none := by
  have h0 : get_empty_cells { s with current_player := Mark.O } = [] := h
  have h1 : get_empty_cells { s with current_player := Mark.X } = [] := h
  rw [minimax]
  split_ifs <;> simp only [] <;> first
    | rfl
    | (rw [h0, maxLoop])
    | (rw [h1, minLoop])

/-- C10: whenever the empty-cell list is empty (the board is full), a
computer-move request at any tier is a no-op: the state after the call — in
particular every cell — equals the state before it, no move is placed, and
(the functions being total) no error is raised. -/
theorem claim_c10 (s : TicTacToe) (coin : Bool) (pick : Nat)
    (h : get_empty_cells s = []) :
    ai_move_easy s pick = s ∧ ai_move_medium s coin pick = s ∧
    ai_move_hard s = s ∧ ai_move s coin pick = s := by
  have heasy : ai_move_easy s pick = s := by
    dsimp only [ai_move_easy]
    rw [dif_pos h]
  have hhard : ai_move_hard s = s := by
    unfold ai_move_hard
    simp only [minimax_state_eq,
      minimax_move_none_of_no_cells s.ai_difficulty 0 true .negInf .posInf s h]
  have hmed : ai_move_medium s coin pick = s := by
    unfold ai_move_medium
    split_ifs
    · exact hhard
    · exact heasy
  refine ⟨heasy, hmed, hhard, ?_⟩
  unfold ai_move
  rcases s.ai_difficulty
  · exact heasy
  · exact hmed
  · exact hhard

/-- Witness for C10 at a concrete full drawn board (X O X / X O O / O X X). -/
theorem claim_c10_witness :
    ai_move_easy
      ⟨⟨some Mark.X, some Mark.O, some Mark.X, some Mark.X, some Mark.O,
        some Mark.O, some Mark.O, some Mark.X, some Mark.X⟩, Mark.X, true,
        none, 9, true, Difficulty.hard⟩ 5 =
      ⟨⟨some Mark.X, some Mark.O, some Mark.X, some Mark.X, some Mark.O,
        some Mark.O, some Mark.O, some Mark.X, some Mark.X⟩, Mark.X, true,
        none, 9, true, Difficulty.hard⟩ ∧
    ai_move_hard
      ⟨⟨some Mark.X, some Mark.O, some Mark.X, some Mark.X, some Mark.O,
        some Mark.O, some Mark.O, some Mark.X, some Mark.X⟩, Mark.X, true,
        none, 9, true, Difficulty.hard⟩ =
      ⟨⟨some Mark.X, some Mark.O, some Mark.X, some Mark.X, some Mark.O,
        some Mark.O, some Mark.O, some Mark.X, some Mark.X⟩, Mark.X, true,
        none, 9, true, Difficulty.hard⟩ :=
  ⟨(claim_c10 _ false 5 (by decide)).1, (claim_c10 _ false 5 (by decide)).2.2.1⟩

/-! ### The fuel-counted value search agrees with the in-place search -/

lemma cellIs_spec : ∀ (x : Cell) (p : Mark), cellIs x p = decide (x = some p) := by
  decide

lemma isEmptyCell_spec : ∀ x : Cell, isEmptyCell x = (x == none) := by
  decide

lemma emptiesOf_eq (b : Board) :
    emptiesOf b = allCells.filter (fun p => getCell b p.1 p.2 == none) := by
  simp only [emptiesOf, allCells, List.filter_cons, List.filter_nil,
    isEmptyCell_spec, getCell]
  simp

lemma get_empty_cells_eq_emptiesOf (s : TicTacToe) :
    get_empty_cells s = emptiesOf s.board := by
  rw [emptiesOf_eq, get_empty_cells]

lemma maxLoopK_eq (fuel : Nat) (diff : Difficulty) (depth : Nat)
    (h : depth < maxDepth diff)
    (child_eq : ∀ (alpha' beta' : Score) (s' : TicTacToe),
      minimaxK fuel diff (depth + 1) false alpha' beta' s'.board s'.moves_count s'.winner
        = (minimax diff (depth + 1) false alpha' beta' s').1)
    (cells : List (Fin 3 × Fin 3)) (alpha beta best : Score)
    (bm : Option (Fin 3 × Fin 3)) (s : TicTacToe)
    (hcp : s.current_player = Mark.O) (hw : s.winner = none)
    (hcells : ∀ rc ∈ cells, getCell s.board rc.1 rc.2 = none) :
    maxLoopK (minimaxK fuel diff (depth + 1) false) cells alpha beta best bm
      s.board s.moves_count
      = (maxLoop diff depth h cells alpha beta best bm s).1 := by
  induction cells generalizing alpha best bm with
  | nil => rw [maxLoop, maxLoopK]
  | cons hd rest ihc =>
    obtain ⟨r, c⟩ := hd
    rw [maxLoop, maxLoopK]
    simp only []
    have hhd : getCell s.board r c = none := hcells (r, c) (by simp)
    set s1 : TicTacToe :=
      { s with board := setCell s.board r c (some Mark.O)
               moves_count := s.moves_count + 1 } with hs1
    set s2 : TicTacToe := if check_win s1 then { s1 with winner := some Mark.O } else s1 with hs2
    have hb2 : s2.board = setCell s.board r c (some Mark.O) := by
      rw [hs2]
      split_ifs <;> simp [hs1]
    have hm2 : s2.moves_count = s.moves_count + 1 := by
      rw [hs2]
      split_ifs <;> simp [hs1]
    have hw2 : s2.winner =
        (if checkWinF (setCell s.board r c (some Mark.O)) Mark.O then some Mark.O
         else none) := by
      rw [hs2]
      have : check_win s1 = checkWinF (setCell s.board r c (some Mark.O)) Mark.O := by
        rw [checkWinF_eq]
        simp [check_win, hs1, hcp]
      rw [this]
      split_ifs <;> simp [hs1, hw]
    have hres : minimaxK fuel diff (depth + 1) false alpha beta
        (setCell s.board r c (some Mark.O)) (s.moves_count + 1)
        (if checkWinF (setCell s.board r c (some Mark.O)) Mark.O then some Mark.O
         else none)
        = (minimax diff (depth + 1) false alpha beta s2).1 := by
      rw [← hw2, ← hb2, ← hm2]
      exact child_eq alpha beta s2
    rw [hres]
    have hstate : (minimax diff (depth + 1) false alpha beta s2).2 = s2 :=
      minimax_state_eq _ _ _ _ _ _
    have hs4 : ({ (minimax diff (depth + 1) false alpha beta s2).2 with
        board := setCell (minimax diff (depth + 1) false alpha beta s2).2.board r c none
        moves_count := (minimax diff (depth + 1) false alpha beta s2).2.moves_count - 1
        winner := none } : TicTacToe) = s := by
      rw [hstate]
      apply undo_place s s2 r c Mark.O hb2 hm2 _ _ _ _ hw hhd
      all_goals rw [hs2]
      all_goals split_ifs <;> simp [hs1]
    rw [hs4]
    split_ifs with hblt hprune
    · rfl
    · exact ihc _ _ _ (fun rc hrc => hcells rc (by simp [hrc]))
    · rfl
    · exact ihc _ _ _ (fun rc hrc => hcells rc (by simp [hrc]))

lemma minLoopK_eq (fuel : Nat) (diff : Difficulty) (depth : Nat)
    (h : depth < maxDepth diff)
    (child_eq : ∀ (alpha' beta' : Score) (s' : TicTacToe),
      minimaxK fuel diff (depth + 1) true alpha' beta' s'.board s'.moves_count s'.winner
        = (minimax diff (depth + 1) true alpha' beta' s').1)
    (cells : List (Fin 3 × Fin 3)) (alpha beta best : Score)
    (bm : Option (Fin 3 × Fin 3)) (s : TicTacToe)
    (hcp : s.current_player = Mark.X) (hw : s.winner = none)
    (hcells : ∀ rc ∈ cells, getCell s.board rc.1 rc.2 = none) :
    minLoopK (minimaxK fuel diff (depth + 1) true) cells alpha beta best bm
      s.board s.moves_count
      = (minLoop diff depth h cells alpha beta best bm s).1 := by
  induction cells generalizing beta best bm with
  | nil => rw [minLoop, minLoopK]
  | cons hd rest ihc =>
    obtain ⟨r, c⟩ := hd
    rw [minLoop, minLoopK]
    simp only []
    have hhd : getCell s.board r c = none := hcells (r, c) (by simp)
    set s1 : TicTacToe :=
      { s with board := setCell s.board r c (some Mark.X)
               moves_count := s.moves_count + 1 } with hs1
    set s2 : TicTacToe := if check_win s1 then { s1 with winner := some Mark.X } else s1 with hs2
    have hb2 : s2.board = setCell s.board r c (some Mark.X) := by
      rw [hs2]
      split_ifs <;> simp [hs1]
    have hm2 : s2.moves_count = s.moves_count + 1 := by
      rw [hs2]
      split_ifs <;> simp [hs1]
    have hw2 : s2.winner =
        (if checkWinF (setCell s.board r c (some Mark.X)) Mark.X then some Mark.X
         else none) := by
      rw [hs2]
      have : check_win s1 = checkWinF (setCell s.board r c (some Mark.X)) Mark.X := by
        rw [checkWinF_eq]
        simp [check_win, hs1, hcp]
      rw [this]
      split_ifs <;> simp [hs1, hw]
    have hres : minimaxK fuel diff (depth + 1) true alpha beta
        (setCell s.board r c (some Mark.X)) (s.moves_count + 1)
        (if checkWinF (setCell s.board r c (some Mark.X)) Mark.X then some Mark.X
         else none)
        = (minimax diff (depth + 1) true alpha beta s2).1 := by
      rw [← hw2, ← hb2, ← hm2]
      exact child_eq alpha beta s2
    rw [hres]
    have hstate : (minimax diff (depth + 1) true alpha beta s2).2 = s2 :=
      minimax_state_eq _ _ _ _ _ _
    have hs4 : ({ (minimax diff (depth + 1) true alpha beta s2).2 with
        board := setCell (minimax diff (depth + 1) true alpha beta s2).2.board r c none
        moves_count := (minimax diff (depth + 1) true alpha beta s2).2.moves_count - 1
        winner := none } : TicTacToe) = s := by
      rw [hstate]
      apply undo_place s s2 r c Mark.X hb2 hm2 _ _ _ _ hw hhd
      all_goals rw [hs2]
      all_goals split_ifs <;> simp [hs1]
    rw [hs4]
    split_ifs with hblt hprune
    · rfl
    · exact ihc _ _ _ (fun rc hrc => hcells rc (by simp [hrc]))
    · rfl
    · exact ihc _ _ _ (fun rc hrc => hcells rc (by simp [hrc]))

lemma minimaxK_eq_aux : ∀ (fuel : Nat) (diff : Difficulty) (depth : Nat),
    maxDepth diff - depth ≤ fuel →
    ∀ (isMax : Bool) (alpha beta : Score) (s : TicTacToe),
    minimaxK fuel diff depth isMax alpha beta s.board s.moves_count s.winner
      = (minimax diff depth isMax alpha beta s).1 := by
  intro fuel
  induction fuel with
  | zero =>
    intro diff depth hb isMax alpha beta s
    rw [minimax]
    simp only [minimaxK, cellIs_spec, decide_eq_true_eq, is_board_full, beq_iff_eq]
    split_ifs <;> first | rfl | omega
  | succ fuel ih =>
    intro diff depth hb isMax alpha beta s
    rw [minimax]
    simp only [minimaxK, cellIs_spec, decide_eq_true_eq, is_board_full, beq_iff_eq]
    split_ifs with h1 h2 h3 h4 h5
    · rfl
    · rfl
    · rfl
    · rfl
    · have hwn : s.winner = none := by
        cases hwv : s.winner with
        | none => rfl
        | some m => cases m <;> simp_all
      have hcells : ∀ rc ∈ get_empty_cells { s with current_player := Mark.O },
          getCell s.board rc.1 rc.2 = none := fun rc hrc => by
        have := mem_get_empty_cells.mp hrc
        simpa using this
      have := maxLoopK_eq fuel diff depth (by omega)
        (fun a' b' s' => ih diff (depth + 1) (by omega) false a' b' s')
        (get_empty_cells { s with current_player := Mark.O })
        alpha beta .negInf none { s with current_player := Mark.O }
        rfl (by simpa using hwn) hcells
      simp only [get_empty_cells_eq_emptiesOf] at this ⊢
      rw [show ({ s with current_player := Mark.O } : TicTacToe).board = s.board from rfl]
        at this
      rw [show ({ s with current_player := Mark.O } : TicTacToe).moves_count
        = s.moves_count from rfl] at this
      rw [this]
    · have hwn : s.winner = none := by
        cases hwv : s.winner with
        | none => rfl
        | some m => cases m <;> simp_all
      have hcells : ∀ rc ∈ get_empty_cells { s with current_player := Mark.X },
          getCell s.board rc.1 rc.2 = none := fun rc hrc => by
        have := mem_get_empty_cells.mp hrc
        simpa using this
      have := minLoopK_eq fuel diff depth (by omega)
        (fun a' b' s' => ih diff (depth + 1) (by omega) true a' b' s')
        (get_empty_cells { s with current_player := Mark.X })
        alpha beta .posInf none { s with current_player := Mark.X }
        rfl (by simpa using hwn) hcells
      simp only [get_empty_cells_eq_emptiesOf] at this ⊢
      rw [show ({ s with current_player := Mark.X } : TicTacToe).board = s.board from rfl]
        at this
      rw [show ({ s with current_player := Mark.X } : TicTacToe).moves_count
        = s.moves_count from rfl] at this
      rw [this]

lemma minimaxK_eq (diff : Difficulty) (depth : Nat) (isMax : Bool)
    (alpha beta : Score) (s : TicTacToe) :
    minimaxK (maxDepth diff - depth) diff depth isMax alpha beta
      s.board s.moves_count s.winner
      = (minimax diff depth isMax alpha beta s).1 :=
  minimaxK_eq_aux _ diff depth le_rfl isMax alpha beta s

end TTT

